import Mathlib

set_option maxRecDepth 4000

/-!
A shallow embedding of the monitoring and deduplication engine of
`src/app.py` (class `RedditTelegramBot`), together with theorems checking
the natural-language specification against it.

Modelling conventions:
* Python strings are Lean `String`s; texts are restricted to ASCII, where
  `str.lower` is `Char.toLower` and the regex class `\w` is
  `[A-Za-z0-9_]`.
* Python `set` objects are `Finset String` when only membership matters;
  where the set's *iteration order* matters (`list(s)` in `save_data`),
  the model quantifies over an arbitrary duplicate-free enumeration of
  the set, since CPython string hashing is seed-randomized and no
  particular iteration order is guaranteed.
* Network effects are explicit data: a `FetchEnv` gives, per subreddit
  and keyword, the items a fetch yields together with a flag telling
  whether the fetch raised after yielding them; the Telegram sink outcome
  of each send is an explicit boolean that `send_message` swallows
  (its whole body is wrapped in `try/except`), so it never influences
  control flow.
* The `is_monitoring` checks inside loop bodies are modelled as constantly
  true during one pass: the two runners are cooperative tasks and a pass
  runs between stop requests.
-/

namespace App

/-! ## Matcher (`contains_keyword`, app.py lines 161-166) -/

/-- ASCII word character, the regex class `\w` restricted to ASCII:
`[A-Za-z0-9_]`. -/
def isWordChar (c : Char) : Bool := c.isAlphanum || c == '_'

/-- Python `str.lower`, restricted to ASCII. -/
def pyLower (c : Char) : Char := c.toLower

/-- The character list of `s.lower()`. -/
def lowerList (s : String) : List Char := s.toList.map pyLower

/-- Whether position `i` of `t` holds a word character; positions outside
`t` count as non-word (this absorbs the string edges). -/
def wordAt (t : List Char) (i : Nat) : Bool :=
  match t[i]? with
  | some c => isWordChar c
  | none => false

/-- Python regex `\b` at position `i` of `t`: the two sides of the
position disagree on word-character-ness (edges count as non-word). -/
def boundaryAt (t : List Char) (i : Nat) : Bool :=
  (if i = 0 then false else wordAt t (i - 1)) != wordAt t i

/-- The literal `k` occurs at position `i` of `t`.  (`re.escape` makes the
keyword a literal, so the regex body matches exactly the keyword's
characters.) -/
def matchAt (t k : List Char) (i : Nat) : Bool :=
  (t.drop i).take k.length == k

/-- `re.search` of the pattern `\b` + escaped literal + `\b` over `t`:
some start position carries the literal with a word boundary at both
ends. -/
def searchWB (t k : List Char) : Bool :=
  (List.range (t.length + 1)).any
    (fun i => matchAt t k i && boundaryAt t i && boundaryAt t (i + k.length))

/-- `contains_keyword` (app.py lines 161-166): false when either input is
empty (`if not text or not keyword`), otherwise
`re.search(r'\b' + re.escape(keyword.lower()) + r'\b', text.lower())`. -/
def contains_keyword (text keyword : String) : Bool :=
  if text.toList.isEmpty || keyword.toList.isEmpty then false
  else searchWB (lowerList text) (lowerList keyword)

/-- The matcher as the *spec's words* describe it (for the refinement
comparison of claim C2): the case-folded keyword occurs in the case-folded
text bounded on both sides by a non-word character or the string edge. -/
def containsKeywordSpecWords (text keyword : String) : Bool :=
  if text.toList.isEmpty || keyword.toList.isEmpty then false
  else
    (List.range ((lowerList text).length + 1)).any
      (fun i => matchAt (lowerList text) (lowerList keyword) i &&
        (i == 0 || !wordAt (lowerList text) (i - 1)) &&
        !wordAt (lowerList text) (i + (lowerList keyword).length))

example : contains_keyword "Painkillers are common" "pain" = false := by decide
example : contains_keyword "pain killer" "pain" = true := by decide
example : contains_keyword "a!b" "!" = true := by decide
example : containsKeywordSpecWords "a!b" "!" = false := by decide
example : contains_keyword "use c++ here" "c++" = false := by decide
example : containsKeywordSpecWords "use c++ here" "c++" = true := by decide

/-! ## Subscription registry (`self.groups`, app.py lines 46-48, 123-133) -/

/-- One group's configuration record
(`{'keywords': set(), 'subreddits': set(), 'processed_items': set(), 'enabled': bool}`). -/
structure GroupConfig where
  keywords : Finset String
  subreddits : Finset String
  processed_items : Finset String
  enabled : Bool
deriving DecidableEq

/-- The default configuration created on first reference to a chat id
(app.py lines 126-132). -/
def defaultConfig : GroupConfig :=
  { keywords := ∅, subreddits := {"all"}, processed_items := ∅, enabled := true }

/-- The `adding_subs` mutation of `handle_text` (app.py lines 534-540):
`config['subreddits'].update(added)` followed by
`if 'all' in subs and len(subs) > 1: subs.remove('all')`.
(`added` filters out items already present, so the update is a union.) -/
def add_subreddits (subs : Finset String) (items : List String) : Finset String :=
  let s := subs ∪ items.toFinset
  if "all" ∈ s ∧ 1 < s.card then s.erase "all" else s

/-- The `removing_subs` mutation of `handle_text` (app.py lines 542-549):
remove every requested item that is present, then
`if not subs: subs = {'all'}`. -/
def remove_subreddits (subs : Finset String) (items : List String) : Finset String :=
  let s := subs \ items.toFinset
  if s = ∅ then {"all"} else s

/-- The spec's invariant on a subscription's sources: never empty, and the
sentinel `'all'` never coexists with a concrete name. -/
def sourcesInv (subs : Finset String) : Prop :=
  subs.Nonempty ∧ ("all" ∈ subs → subs = {"all"})

example : add_subreddits {"all"} ["tech"] = {"tech"} := by decide
example : remove_subreddits {"tech"} ["tech"] = {"all"} := by decide
example : add_subreddits {"tech"} ["all"] = {"tech"} := by decide

/-! ## Dedup-store trim (`save_data`, app.py lines 100-121) -/

/-- The trim performed by `save_data` (app.py lines 105-107):
`if len(s) > 5000: s = set(list(s)[-2000:])`, applied to an enumeration
`list(s)` of the set.  `l[-2000:]` keeps the last 2000 entries of the
enumeration, i.e. drops all but 2000.  Polymorphic in the element type;
the program instantiates it at item-identifier strings. -/
def trim_processed {α : Type} (enum : List α) : List α :=
  if 5000 < enum.length then enum.drop (enum.length - 2000) else enum

/-! ## Persistence loader (`load_data`, app.py lines 63-98) -/

/-- One group's record as parsed from JSON: each field is present or
absent. -/
structure RawGroup where
  keywords : Option (List String)
  subreddits : Option (List String)
  processed_items : Option (List String)
  enabled : Option Bool

/-- The whole persisted file as parsed from JSON.  The legacy flat layout
has the four data fields at top level and no `groups` key. -/
structure RawData where
  keywords : Option (List String)
  subreddits : Option (List String)
  processed_items : Option (List String)
  enabled : Option Bool
  groups : Option (List (String × RawGroup))

/-- `str(self.default_chat_id) if self.default_chat_id else "default"`
(app.py line 73): the configured default chat id when it is set and
non-empty (Python truthiness), else the literal `"default"`. -/
def migrationDefaultId (defaultChatId : Option String) : String :=
  match defaultChatId with
  | some s => if s.toList.isEmpty then "default" else s
  | none => "default"

/-- Field defaults applied when reading one group record
(app.py lines 87-92). -/
def parseRawGroup (g : RawGroup) : GroupConfig :=
  { keywords := (g.keywords.getD []).toFinset
    subreddits := (g.subreddits.getD ["all"]).toFinset
    processed_items := (g.processed_items.getD []).toFinset
    enabled := g.enabled.getD true }

/-- `load_data` (app.py lines 63-98) on an already-parsed file: when the
file has a top-level `keywords` key and no `groups` key, migrate the flat
legacy layout into a single record keyed by the default id
(lines 71-81); otherwise read the keyed layout (lines 83-92). -/
def load_data (defaultChatId : Option String) (d : RawData) :
    List (String × GroupConfig) :=
  if d.keywords.isSome ∧ d.groups.isNone then
    [(migrationDefaultId defaultChatId,
      { keywords := (d.keywords.getD []).toFinset
        subreddits := (d.subreddits.getD ["all"]).toFinset
        processed_items := (d.processed_items.getD []).toFinset
        enabled := d.enabled.getD true })]
  else
    (d.groups.getD []).map (fun p => (p.1, parseRawGroup p.2))

example :
    load_data none
      { keywords := some ["x"], subreddits := some ["all"],
        processed_items := some [], enabled := some true, groups := none } =
    [("default",
      { keywords := {"x"}, subreddits := {"all"}, processed_items := ∅,
        enabled := true })] := by decide

/-! ## Command handlers (`handle_text`, `callback_handler`, `start_cmd`)

Python dicts are modelled as insertion-ordered association lists; the
returned `Nat` counts the `self.save_data()` calls the handler performs
before returning. -/

/-- Dict lookup. -/
def alookup {β : Type} (l : List (String × β)) (k : String) : Option β :=
  (l.find? (fun p => p.1 == k)).map (fun p => p.2)

/-- Dict assignment (overwrite in place, or append a new entry). -/
def aset {β : Type} (l : List (String × β)) (k : String) (v : β) :
    List (String × β) :=
  if (l.find? (fun p => p.1 == k)).isSome then
    l.map (fun p => if p.1 == k then (k, v) else p)
  else l ++ [(k, v)]

/-- The bot's mutable state relevant to the command surface: the group
registry (`self.groups`) and the menu-navigation states
(`self.menu_states`; an entry may hold Python `None`). -/
structure BotState where
  groups : List (String × GroupConfig)
  menuStates : List (String × Option String)
deriving DecidableEq

/-- `get_group_config` (app.py lines 123-133): look the chat id up,
lazily creating a default record; returns the record and the possibly
extended registry.  Performs no save. -/
def get_group_config (groups : List (String × GroupConfig)) (chatId : String) :
    GroupConfig × List (String × GroupConfig) :=
  match alookup groups chatId with
  | some c => (c, groups)
  | none => (defaultConfig, groups ++ [(chatId, defaultConfig)])

/-- Strip leading and trailing whitespace (Python `str.strip`). -/
def trimChars (l : List Char) : List Char :=
  ((l.dropWhile Char.isWhitespace).reverse.dropWhile Char.isWhitespace).reverse

/-- The input parsing of `handle_text` (app.py lines 514-515):
`[item.strip().lower() for item in text.strip().split(',') if item.strip()]`. -/
def parseItems (text : String) : List String :=
  (((trimChars text.toList).splitOn ',').map
      (fun w => String.mk ((trimChars w).map pyLower))).filter
    (fun s => !s.toList.isEmpty)

/-- `handle_text` (app.py lines 503-551): dispatch on the chat's menu
state; each recognised state mutates the chat's config, calls
`save_data`, replies, and then clears the menu state.  An unset or
`None`/empty state, or an input with no valid items, returns early. -/
def handle_text (st : BotState) (chatId text : String) : BotState × Nat :=
  match alookup st.menuStates chatId with
  | none => (st, 0)
  | some none => (st, 0)
  | some (some state) =>
    if state.toList.isEmpty then (st, 0)
    else
      let cg := get_group_config st.groups chatId
      let config := cg.1
      let groups1 := cg.2
      let items := parseItems text
      if items.isEmpty then ({ st with groups := groups1 }, 0)
      else
        let clearMenu := aset st.menuStates chatId none
        if state == "adding_keywords" then
          (⟨aset groups1 chatId
              { config with keywords := config.keywords ∪ items.toFinset },
            clearMenu⟩, 1)
        else if state == "removing_keywords" then
          (⟨aset groups1 chatId
              { config with keywords := config.keywords \ items.toFinset },
            clearMenu⟩, 1)
        else if state == "adding_subs" then
          (⟨aset groups1 chatId
              { config with subreddits := add_subreddits config.subreddits items },
            clearMenu⟩, 1)
        else if state == "removing_subs" then
          (⟨aset groups1 chatId
              { config with subreddits := remove_subreddits config.subreddits items },
            clearMenu⟩, 1)
        else ({ groups := groups1, menuStates := clearMenu }, 0)

/-- `callback_handler` (app.py lines 417-501): dispatch on the pressed
button.  `clear_kw`, `clear_sub` and `toggle` mutate and save; the other
branches only read, set a menu state, or toggle global monitoring — yet
all of them run `get_group_config` first, which may lazily create a new
subscription record without saving. -/
def callback_handler (st : BotState) (chatId data : String) : BotState × Nat :=
  let cg := get_group_config st.groups chatId
  let config := cg.1
  let groups1 := cg.2
  if data == "add_kw" then
    (⟨groups1, aset st.menuStates chatId (some "adding_keywords")⟩, 0)
  else if data == "remove_kw" then
    if config.keywords = ∅ then (⟨groups1, st.menuStates⟩, 0)
    else (⟨groups1, aset st.menuStates chatId (some "removing_keywords")⟩, 0)
  else if data == "list_kw" then (⟨groups1, st.menuStates⟩, 0)
  else if data == "clear_kw" then
    (⟨aset groups1 chatId { config with keywords := ∅ }, st.menuStates⟩, 1)
  else if data == "add_sub" then
    (⟨groups1, aset st.menuStates chatId (some "adding_subs")⟩, 0)
  else if data == "remove_sub" then
    if config.subreddits = ∅ then (⟨groups1, st.menuStates⟩, 0)
    else (⟨groups1, aset st.menuStates chatId (some "removing_subs")⟩, 0)
  else if data == "list_sub" then (⟨groups1, st.menuStates⟩, 0)
  else if data == "clear_sub" then
    (⟨aset groups1 chatId { config with subreddits := {"all"} },
      st.menuStates⟩, 1)
  else if data == "status" then (⟨groups1, st.menuStates⟩, 0)
  else if data == "toggle" then
    (⟨aset groups1 chatId { config with enabled := !config.enabled },
      st.menuStates⟩, 1)
  else (⟨groups1, st.menuStates⟩, 0)

/-- `start_cmd` (app.py lines 363-367): ensure the chat's record exists,
then save. -/
def start_cmd (st : BotState) (chatId : String) : BotState × Nat :=
  let cg := get_group_config st.groups chatId
  (⟨cg.2, st.menuStates⟩, 1)

/-! ## Poll cycle (`search_for_group`, `monitor_loop`) and stream fan-out
(`stream_comments`) -/

/-- A Reddit post; an absent or empty `selftext` behave identically
(Python truthiness), so absence is modelled as `""`. -/
structure Post where
  id : String
  title : String
  selftext : String
deriving DecidableEq

/-- A Reddit comment; an absent body is modelled as `""` (it matches no
keyword either way). -/
structure Comment where
  id : String
  body : String
deriving DecidableEq

/-- One send attempt: the item id, the matching keyword, and the sink
outcome (`send_message` swallows the outcome, so it influences nothing).
-/
abbrev Send := String × String × Bool

/-- The per-destination state the two runners thread: the destination's
`processed_items` set and the log of send attempts made to it. -/
structure PollState where
  processed : Finset String
  sends : List Send
deriving DecidableEq

/-- The per-post body of the poll search (app.py lines 233-247): skip if
already processed; re-verify the keyword against title and non-empty
selftext; on match, send (`send_message`, which catches every sink
error) and only then insert the id — unconditionally, whatever the sink
outcome `sinkOk`. -/
def processPost (kw : String) (sinkOk : Bool) (st : PollState) (p : Post) :
    PollState :=
  if p.id ∈ st.processed then st
  else
    let title_match := contains_keyword p.title kw
    let body_match := !p.selftext.toList.isEmpty && contains_keyword p.selftext kw
    if title_match || body_match then
      { processed := insert p.id st.processed,
        sends := st.sends ++ [(p.id, kw, sinkOk)] }
    else st

/-- The per-comment body of the poll search (app.py lines 262-270). -/
def processComment (kw : String) (sinkOk : Bool) (st : PollState) (c : Comment) :
    PollState :=
  if c.id ∈ st.processed then st
  else if contains_keyword c.body kw then
    { processed := insert c.id st.processed,
      sends := st.sends ++ [(c.id, kw, sinkOk)] }
  else st

/-- The external world of one poll pass: whether `reddit.subreddit(sub)`
succeeds; the posts `subreddit.search(kw, ...)` yields (with a flag
telling whether the iteration raised after yielding them); likewise the
comments `subreddit.comments(...)` yields; and the sink outcome of each
send, keyed by item id and keyword. -/
structure FetchEnv where
  subredditOk : String → Bool
  searchPosts : String → String → List Post × Bool
  comments : String → List Comment × Bool
  sinkOk : String → String → Bool

/-- The keyword loop of the posts phase (app.py lines 230-249).  A raised
fetch error propagates out of the keyword loop (the `try` wraps the whole
per-source block), discarding the remaining keywords of this source. -/
def runKeywordPosts (env : FetchEnv) (sub : String) :
    List String → PollState → PollState × Bool
  | [], st => (st, false)
  | kw :: rest, st =>
    let fr := env.searchPosts sub kw
    let st1 := fr.1.foldl (fun s p => processPost kw (env.sinkOk p.id kw) s p) st
    if fr.2 then (st1, true) else runKeywordPosts env sub rest st1

/-- One source of the posts phase (app.py lines 226-252): the
`try/except` catches a failing `reddit.subreddit` call and any error the
keyword loop raises, logs, and continues with the next source. -/
def runPostsSource (env : FetchEnv) (kws : List String) (st : PollState)
    (sub : String) : PollState :=
  if env.subredditOk sub then (runKeywordPosts env sub kws st).1 else st

/-- The keyword loop of the comments phase (app.py lines 259-270); the
comment listing is re-fetched for every keyword. -/
def runKeywordComments (env : FetchEnv) (sub : String) :
    List String → PollState → PollState × Bool
  | [], st => (st, false)
  | kw :: rest, st =>
    let fr := env.comments sub
    let st1 := fr.1.foldl (fun s c => processComment kw (env.sinkOk c.id kw) s c) st
    if fr.2 then (st1, true) else runKeywordComments env sub rest st1

/-- One source of the comments phase (app.py lines 254-272). -/
def runCommentsSource (env : FetchEnv) (kws : List String) (st : PollState)
    (sub : String) : PollState :=
  if env.subredditOk sub then (runKeywordComments env sub kws st).1 else st

/-- `search_for_group` (app.py lines 216-272): return at once for a
disabled group or one without keywords; otherwise run the posts phase
over all sources, then the comments phase over all sources.  `kws` and
`subs` are enumerations of the group's keyword and subreddit sets. -/
def search_for_group (env : FetchEnv) (enabled : Bool) (kws subs : List String)
    (st : PollState) : PollState :=
  if !enabled || kws.isEmpty then st
  else
    let st1 := subs.foldl (runPostsSource env kws) st
    subs.foldl (runCommentsSource env kws) st1

/-- One group's configuration as the poll pass consumes it (keyword and
subreddit sets enumerated as lists). -/
structure PollCfg where
  enabled : Bool
  keywords : List String
  subreddits : List String
  processed : Finset String
deriving DecidableEq

/-- One destination's share of a poll pass: its `search_for_group` run,
yielding the updated config and the sends made to it. -/
def runGroupPoll (env : FetchEnv) (cfg : PollCfg) : PollCfg × List Send :=
  let st := search_for_group env cfg.enabled cfg.keywords cfg.subreddits
    ⟨cfg.processed, []⟩
  ({ cfg with processed := st.processed }, st.sends)

/-- One full cycle of `monitor_loop` (app.py lines 348-350): every
destination is visited; `search_for_group` never raises, and each call
touches only its own destination's record. -/
def monitor_pass (env : FetchEnv) (groups : List (String × PollCfg)) :
    List (String × PollCfg) :=
  groups.map (fun g => (g.1, (runGroupPoll env g.2).1))

/-- The per-(comment, destination) keyword loop of `stream_comments`
(app.py lines 322-331): on the first keyword that matches *and* passes
the dedup check, send, mark processed and `break`; a keyword that matches
an already-processed id does not break, but every later dedup check fails
the same way. -/
def streamProcessGroup (sinkOk : Bool) (body cid : String) :
    List String → PollState → PollState
  | [], st => st
  | kw :: rest, st =>
    if contains_keyword body kw then
      if cid ∈ st.processed then streamProcessGroup sinkOk body cid rest st
      else
        { processed := insert cid st.processed,
          sends := st.sends ++ [(cid, kw, sinkOk)] }
    else streamProcessGroup sinkOk body cid rest st

/-- The per-(comment, destination) step of `stream_comments`
(app.py lines 313-331): skip disabled groups and groups not watching the
comment's subreddit, else run the keyword loop. -/
def stream_handle_comment (sinkOk : Bool) (subName : String) (c : Comment)
    (enabled : Bool) (subs : Finset String) (kws : List String)
    (st : PollState) : PollState :=
  if !enabled then st
  else if "all" ∉ subs ∧ subName ∉ subs then st
  else streamProcessGroup sinkOk c.body c.id kws st

/-- How many send attempts in the log concern item `cid`. -/
def sendsFor (cid : String) (l : List Send) : Nat :=
  (l.filter (fun s => s.1 == cid)).length

/-! ## Interleaved execution of the two runners

`monitor_loop` and `stream_comments` run as two concurrent asyncio tasks
over the *same* per-destination `processed_items` set, and in both
per-item bodies the dedup check and the insert straddle the suspension
point `await self.send_message(...)` (app.py lines 263-268 for the poll
comments phase, 243-246 for the poll posts phase, 325-328 for the
stream).  The model below keeps that suspension explicit: each task is a
list of per-item work units; a unit's synchronous prefix (dedup check
plus keyword matching, which contain no `await`) is one atomic
micro-step that, on a hit, logs the send attempt and suspends; the
insert is a second micro-step taken when the task is next scheduled.  A
schedule chooses which task advances at each moment. -/

/-- One per-item unit of work at a fixed destination, via either
ingestion path, with the sink outcome of a potential send attached. -/
inductive Job where
  | pollPostJob (p : Post) (kw : String) (sinkOk : Bool)
  | pollCommentJob (c : Comment) (kw : String) (sinkOk : Bool)
  | streamCommentJob (enabled : Bool) (subs : Finset String)
      (subName : String) (c : Comment) (kws : List String) (sinkOk : Bool)

/-- The synchronous prefix of each per-item body: the decision, read off
the current `processed_items`, whether this unit reaches an
`await send_message` and with which (item id, keyword, sink outcome).
Poll posts: app.py lines 235-245 (skip if processed, then title/selftext
re-verification).  Poll comments: lines 263-267.  Stream: lines 318-327
— the keyword loop up to the first send contains no `await`, and while
the id is processed every matching keyword fails the same dedup check,
so the loop sends exactly when the id is fresh and some keyword matches,
with the first matching keyword. -/
def wantsSend (processed : Finset String) : Job → Option Send
  | .pollPostJob p kw ok =>
    if p.id ∈ processed then none
    else if contains_keyword p.title kw ||
        (!p.selftext.toList.isEmpty && contains_keyword p.selftext kw) then
      some (p.id, kw, ok)
    else none
  | .pollCommentJob c kw ok =>
    if c.id ∈ processed then none
    else if contains_keyword c.body kw then some (c.id, kw, ok) else none
  | .streamCommentJob en subs sn c kws ok =>
    if !en then none
    else if "all" ∉ subs ∧ sn ∉ subs then none
    else if c.id ∈ processed then none
    else
      match kws.find? (fun k => contains_keyword c.body k) with
      | some kw => some (c.id, kw, ok)
      | none => none

/-- A task's control point: idle before its next unit, or suspended
inside `await send_message` with the insert of the sent id still
pending. -/
inductive TaskPC where
  | idle (jobs : List Job)
  | sending (sd : Send) (jobs : List Job)

/-- The shared per-destination state and the two runner tasks (task 0:
poll, task 1: stream), with one send-attempt log per task. -/
structure SysState where
  processed : Finset String
  sends0 : List Send
  sends1 : List Send
  task0 : TaskPC
  task1 : TaskPC

/-- One cooperative micro-step of a task against the shared `processed`
set: from idle, run the synchronous check of the next unit — on a hit
the send attempt happens and the task suspends; from the suspension,
resume and insert the id (unconditionally: `send_message` has swallowed
any sink error).  Returns the new control point, the logged send attempt
and the id to insert, if any. -/
def taskStep (processed : Finset String) :
    TaskPC → TaskPC × Option Send × Option String
  | .idle [] => (.idle [], none, none)
  | .idle (j :: rest) =>
    match wantsSend processed j with
    | some sd => (.sending sd rest, some sd, none)
    | none => (.idle rest, none, none)
  | .sending sd rest => (.idle rest, none, some sd.1)

/-- Apply a pending insert to the shared set. -/
def applyIns (processed : Finset String) : Option String → Finset String
  | some i => insert i processed
  | none => processed

/-- Advance the task the scheduler picked (`false` = poll task 0,
`true` = stream task 1) by one micro-step. -/
def sysStep (s : SysState) : Bool → SysState
  | true =>
    { s with
      task1 := (taskStep s.processed s.task1).1
      sends1 := s.sends1 ++ (taskStep s.processed s.task1).2.1.toList
      processed := applyIns s.processed (taskStep s.processed s.task1).2.2 }
  | false =>
    { s with
      task0 := (taskStep s.processed s.task0).1
      sends0 := s.sends0 ++ (taskStep s.processed s.task0).2.1.toList
      processed := applyIns s.processed (taskStep s.processed s.task0).2.2 }

/-- Run the two tasks under a schedule. -/
def runSchedule (s : SysState) (sched : List Bool) : SysState :=
  sched.foldl sysStep s

/-- Whether the task is suspended inside the send of item `cid`. -/
def pendingIs (cid : String) : TaskPC → Bool
  | .idle _ => false
  | .sending sd _ => sd.1 == cid

/-- Both tasks are simultaneously suspended inside a send of item `cid`:
both passed the dedup check for `cid` before either inserted it. -/
def bothPending (cid : String) (s : SysState) : Prop :=
  pendingIs cid s.task0 = true ∧ pendingIs cid s.task1 = true

instance (cid : String) (s : SysState) : Decidable (bothPending cid s) :=
  inferInstanceAs
    (Decidable (pendingIs cid s.task0 = true ∧ pendingIs cid s.task1 = true))

/-! ## Dispatch coordinator (`start_monitoring` / `stop_monitoring`,
app.py lines 553-583)

An `asyncio.Task` is `running` or `done`.  `task.cancel()` followed by
`await task` returns only once the task has finished unwinding, and the
two loop bodies cannot swallow the cancellation (their `except Exception`
clauses do not catch `asyncio.CancelledError`), so cancel-then-await
takes any existing task to `done`. -/

inductive TaskSt where
  | running
  | done
deriving DecidableEq

/-- The monitoring lifecycle state: the `is_monitoring` flag and the two
task handles (`None` before the first start). -/
structure MonState where
  isMonitoring : Bool
  monitorTask : Option TaskSt
  streamTask : Option TaskSt
deriving DecidableEq

/-- Observable actions of `stop_monitoring`, in program order. -/
inductive MonEvent where
  | clearFlag
  | cancelTask (n : Nat)
  | awaitTask (n : Nat)
deriving DecidableEq

/-- `start_monitoring` (app.py lines 553-563): a no-op when already
monitoring; otherwise set the flag and launch both tasks. -/
def start_monitoring (s : MonState) : MonState :=
  if s.isMonitoring then s
  else { isMonitoring := true, monitorTask := some .running,
         streamTask := some .running }

/-- `task.cancel()` followed by `await task` (wrapped in
`try/except CancelledError`): an existing task ends up `done`. -/
def cancelAwait : Option TaskSt → Option TaskSt
  | none => none
  | some _ => some .done

/-- The events `if task: task.cancel(); await task` emits. -/
def taskEvents (n : Nat) : Option TaskSt → List MonEvent
  | none => []
  | some _ => [.cancelTask n, .awaitTask n]

/-- `stop_monitoring` (app.py lines 565-583): clear `is_monitoring`
first, then cancel and await the monitor task (index 0), then cancel and
await the stream task (index 1).  Returns the new state and the emitted
event trace. -/
def stop_monitoring (s : MonState) : MonState × List MonEvent :=
  ({ isMonitoring := false, monitorTask := cancelAwait s.monitorTask,
     streamTask := cancelAwait s.streamTask },
   .clearFlag :: (taskEvents 0 s.monitorTask ++ taskEvents 1 s.streamTask))

/-! ## Claim C4 -/

/-- Claim C4 (confirmed): the add-sources and remove-sources operations
preserve the invariant that a subscription's sources set is non-empty and
that the sentinel `'all'` never coexists with a concrete name; adding a
concrete source to `{'all'}` yields exactly that concrete source, and
removing the last concrete source resets the set to exactly `{'all'}`. -/
theorem c4_sources_invariant :
    (∀ (s : Finset String) (items : List String), sourcesInv s →
        sourcesInv (add_subreddits s items) ∧
        sourcesInv (remove_subreddits s items)) ∧
    (∀ c : String, c ≠ "all" → add_subreddits {"all"} [c] = {c}) ∧
    (∀ (s : Finset String) (items : List String),
        s \ items.toFinset = ∅ → remove_subreddits s items = {"all"}) := by
  refine ⟨fun s items hs => ⟨?_, ?_⟩, fun c hc => ?_, fun s items h => ?_⟩
  · unfold add_subreddits
    set u := s ∪ items.toFinset with hu
    by_cases h : "all" ∈ u ∧ 1 < u.card
    · rw [if_pos h]
      constructor
      · have h1 : 1 ≤ (u.erase "all").card := by
          have := Finset.card_erase_of_mem h.1
          omega
        exact Finset.card_pos.mp (by omega)
      · intro hmem
        exact absurd (Finset.mem_erase.mp hmem).1 (by simp)
    · rw [if_neg h]
      refine ⟨hs.1.mono Finset.subset_union_left, fun hmem => ?_⟩
      have hcard : u.card ≤ 1 := by
        by_contra hlt
        exact h ⟨hmem, by omega⟩
      obtain ⟨a, ha⟩ := Finset.card_eq_one.mp
        (le_antisymm hcard (Finset.card_pos.mpr ⟨"all", hmem⟩))
      rw [ha] at hmem ⊢
      rw [Finset.mem_singleton.mp hmem]
  · unfold remove_subreddits
    by_cases h : s \ items.toFinset = ∅
    · rw [if_pos h]
      exact ⟨⟨"all", by simp⟩, fun _ => rfl⟩
    · rw [if_neg h]
      refine ⟨Finset.nonempty_iff_ne_empty.mpr h, fun hmem => ?_⟩
      have hall : "all" ∈ s := (Finset.mem_sdiff.mp hmem).1
      have hs2 := hs.2 hall
      refine Finset.eq_singleton_iff_unique_mem.mpr ⟨hmem, fun x hx => ?_⟩
      have : x ∈ s := (Finset.mem_sdiff.mp hx).1
      rw [hs2] at this
      exact Finset.mem_singleton.mp this
  · unfold add_subreddits
    have hu : ({"all"} : Finset String) ∪ [c].toFinset = insert "all" {c} := by
      ext x
      simp
    rw [hu, if_pos]
    · rw [Finset.erase_insert (by simpa using Ne.symm hc)]
    · refine ⟨by simp, ?_⟩
      rw [Finset.card_insert_of_not_mem (by simp [Ne.symm hc])]
      simp
  · unfold remove_subreddits
    rw [if_pos h]

/-- Witness for C4 at concrete inputs. -/
theorem c4_sources_invariant_witness :
    sourcesInv {"all"} ∧
    (sourcesInv (add_subreddits {"all"} ["tech"]) ∧
      sourcesInv (remove_subreddits {"all"} ["tech"])) ∧
    add_subreddits {"all"} ["tech"] = {"tech"} ∧
    remove_subreddits {"tech"} ["tech"] = {"all"} :=
  ⟨⟨⟨"all", by decide⟩, fun _ => rfl⟩,
    c4_sources_invariant.1 {"all"} ["tech"] ⟨⟨"all", by decide⟩, fun _ => rfl⟩,
    c4_sources_invariant.2.1 "tech" (by decide),
    c4_sources_invariant.2.2 {"tech"} ["tech"] (by decide)⟩

/-! ## Claim C10 -/

/-- Claim C10 (confirmed): adding the sentinel `'all'` (or anything else)
to a subscription that already holds a concrete source never leaves the
sentinel in the set: `handle_text`'s add-sources branch strips `'all'`
back out whenever the result would hold it alongside another name. -/
theorem c10_sentinel_not_reenterable :
    ∀ (s : Finset String) (items : List String) (c : String),
      c ∈ s → c ≠ "all" → "all" ∉ add_subreddits s items := by
  intro s items c hc hne
  unfold add_subreddits
  set u := s ∪ items.toFinset with hu
  by_cases h : "all" ∈ u ∧ 1 < u.card
  · rw [if_pos h]
    simp
  · rw [if_neg h]
    intro hmem
    refine h ⟨hmem, ?_⟩
    refine Finset.one_lt_card.mpr ⟨c, ?_, "all", hmem, hne⟩
    exact Finset.mem_union_left _ hc

/-- Witness for C10: adding `'all'` to `{'tech'}` leaves the sentinel
out. -/
theorem c10_sentinel_not_reenterable_witness :
    ("tech" : String) ∈ ({"tech"} : Finset String) ∧ ("tech" : String) ≠ "all" ∧
    "all" ∉ add_subreddits {"tech"} ["all"] :=
  ⟨by decide, by decide,
    c10_sentinel_not_reenterable {"tech"} ["all"] "tech" (by decide) (by decide)⟩

/-! ## Claim C7 -/

/-- Claim C7 (confirmed): starting while already monitoring changes
nothing; `stop_monitoring` clears the running flag first (it is the head
of the event trace), cancels and awaits each existing task (the await
events appear in the trace), and when it returns neither task is still
running; stopping an already-stopped system leaves the state unchanged. -/
theorem c7_lifecycle :
    (∀ s : MonState, s.isMonitoring = true → start_monitoring s = s) ∧
    (∀ s : MonState,
        (stop_monitoring s).1.isMonitoring = false ∧
        (stop_monitoring s).1.monitorTask ≠ some .running ∧
        (stop_monitoring s).1.streamTask ≠ some .running) ∧
    (∀ s : MonState,
        (stop_monitoring s).2.head? = some .clearFlag ∧
        (s.monitorTask ≠ none → MonEvent.awaitTask 0 ∈ (stop_monitoring s).2) ∧
        (s.streamTask ≠ none → MonEvent.awaitTask 1 ∈ (stop_monitoring s).2)) ∧
    (∀ s : MonState, s.isMonitoring = false →
        s.monitorTask ≠ some .running → s.streamTask ≠ some .running →
        (stop_monitoring s).1 = s) := by
  refine ⟨fun s h => by simp [start_monitoring, h], fun s => ⟨rfl, ?_, ?_⟩,
    fun s => ⟨rfl, fun hm => ?_, fun hs => ?_⟩, fun s h1 h2 h3 => ?_⟩
  · cases h : s.monitorTask <;> simp [stop_monitoring, cancelAwait, h]
  · cases h : s.streamTask <;> simp [stop_monitoring, cancelAwait, h]
  · cases h : s.monitorTask with
    | none => exact absurd h hm
    | some t => simp [stop_monitoring, taskEvents, h]
  · cases h : s.streamTask with
    | none => exact absurd h hs
    | some t => simp [stop_monitoring, taskEvents, h]
  · have hm : cancelAwait s.monitorTask = s.monitorTask := by
      cases h : s.monitorTask with
      | none => rfl
      | some t => cases t with
        | running => exact absurd h h2
        | done => rfl
    have hs : cancelAwait s.streamTask = s.streamTask := by
      cases h : s.streamTask with
      | none => rfl
      | some t => cases t with
        | running => exact absurd h h3
        | done => rfl
    cases s with
    | mk im mt st => simp_all [stop_monitoring]

/-- Witness for C7 at concrete states. -/
theorem c7_lifecycle_witness :
    start_monitoring ⟨true, some .running, some .running⟩ =
      ⟨true, some .running, some .running⟩ ∧
    (MonState.mk false (some .done) none).monitorTask ≠ none ∧
    MonEvent.awaitTask 0 ∈ (stop_monitoring ⟨false, some .done, none⟩).2 ∧
    (stop_monitoring ⟨false, some .done, none⟩).1 = ⟨false, some .done, none⟩ :=
  ⟨c7_lifecycle.1 _ rfl, by decide,
    (c7_lifecycle.2.2.1 ⟨false, some .done, none⟩).2.1 (by decide),
    c7_lifecycle.2.2.2 ⟨false, some .done, none⟩ rfl (by decide) (by decide)⟩

/-! ## Claim C8 -/

/-- Claim C8 (confirmed): loading a persisted file in the legacy flat
layout (top-level `keywords` present, no `groups` key) yields exactly one
destination record, keyed by the configured default identifier, whose
fields are the flat file's fields (with the loader's defaults for absent
ones). -/
theorem c8_legacy_migration :
    ∀ (dflt : Option String) (d : RawData) (ks : List String),
      d.keywords = some ks → d.groups = none →
      load_data dflt d =
        [(migrationDefaultId dflt,
          { keywords := ks.toFinset,
            subreddits := (d.subreddits.getD ["all"]).toFinset,
            processed_items := (d.processed_items.getD []).toFinset,
            enabled := d.enabled.getD true })] := by
  intro dflt d ks hk hg
  unfold load_data
  rw [if_pos ⟨by simp [hk], by simp [hg]⟩, hk]
  rfl

/-- Witness for C8: the spec's example file
`{"keywords":["x"],"subreddits":["all"],"processed_items":[],"enabled":true}`
loads to one record under the default identifier with keywords `{"x"}`. -/
theorem c8_legacy_migration_witness :
    load_data none
      { keywords := some ["x"], subreddits := some ["all"],
        processed_items := some [], enabled := some true, groups := none } =
    [("default",
      { keywords := {"x"}, subreddits := {"all"}, processed_items := ∅,
        enabled := true })] := by
  have h := c8_legacy_migration none
    { keywords := some ["x"], subreddits := some ["all"],
      processed_items := some [], enabled := some true, groups := none }
    ["x"] rfl rfl
  simpa using h

/-! ## Claim C5 -/

/-- The stream keyword loop appends at most one send attempt. -/
lemma streamProcessGroup_sends_le (ok : Bool) (body cid : String) :
    ∀ (kws : List String) (st : PollState),
      (streamProcessGroup ok body cid kws st).sends.length ≤
        st.sends.length + 1 := by
  intro kws
  induction kws with
  | nil => intro st; simp [streamProcessGroup]
  | cons kw rest ih =>
    intro st
    unfold streamProcessGroup
    by_cases h : contains_keyword body kw = true
    · rw [if_pos h]
      by_cases hm : cid ∈ st.processed
      · rw [if_pos hm]
        exact ih st
      · rw [if_neg hm]
        simp
    · rw [if_neg h]
      exact ih st

/-- Claim C5 (confirmed): for each arriving comment and each destination,
the stream fan-out makes at most one send attempt even when several of
the destination's keywords match the body; when the id is fresh and some
keyword matches, the loop sends exactly once, for the *first* matching
keyword, and stops there. -/
theorem c5_stream_at_most_one :
    (∀ (ok : Bool) (body cid : String) (kws : List String) (st : PollState),
        (streamProcessGroup ok body cid kws st).sends.length ≤
          st.sends.length + 1) ∧
    (∀ (ok sinkOk : Bool) (sn : String) (c : Comment) (subs : Finset String)
        (kws : List String) (st : PollState),
        (stream_handle_comment sinkOk sn c ok subs kws st).sends.length ≤
          st.sends.length + 1) ∧
    (∀ (ok : Bool) (body cid : String) (kws : List String) (st : PollState)
        (kw : String),
        kws.find? (fun k => contains_keyword body k) = some kw →
        cid ∉ st.processed →
        streamProcessGroup ok body cid kws st =
          { processed := insert cid st.processed,
            sends := st.sends ++ [(cid, kw, ok)] }) := by
  refine ⟨streamProcessGroup_sends_le, ?_, ?_⟩
  · intro ok sinkOk sn c subs kws st
    unfold stream_handle_comment
    by_cases h1 : (!ok) = true
    · rw [if_pos h1]; simp
    · rw [if_neg h1]
      by_cases h2 : "all" ∉ subs ∧ sn ∉ subs
      · rw [if_pos h2]; simp
      · rw [if_neg h2]
        exact streamProcessGroup_sends_le sinkOk c.body c.id kws st
  · intro ok body cid kws
    induction kws with
    | nil => intro st kw h hm; simp [List.find?] at h
    | cons k rest ih =>
      intro st kw h hm
      rw [List.find?_cons] at h
      unfold streamProcessGroup
      cases hk : contains_keyword body k with
      | true =>
        rw [if_pos rfl, if_neg hm]
        rw [hk] at h
        simp at h
        rw [h]
      | false =>
        rw [if_neg (by simp)]
        rw [hk] at h
        simp at h
        exact ih st kw h hm

/-- Witness for C5: a comment body matching two of three keywords is
sent exactly once, for the first matching keyword. -/
theorem c5_stream_at_most_one_witness :
    (["zzz", "pain", "killer"].find?
        (fun k => contains_keyword "pain killer" k) = some "pain") ∧
    ("c1" ∉ (∅ : Finset String)) ∧
    streamProcessGroup true "pain killer" "c1" ["zzz", "pain", "killer"]
        ⟨∅, []⟩ =
      { processed := {"c1"}, sends := [("c1", "pain", true)] } := by
  refine ⟨by decide, by decide, ?_⟩
  have h := c5_stream_at_most_one.2.2 true "pain killer" "c1"
    ["zzz", "pain", "killer"] ⟨∅, []⟩ "pain" (by decide) (by decide)
  simpa using h

/-! ## Claim C1 -/

lemma sendsFor_append (cid : String) (l1 l2 : List Send) :
    sendsFor cid (l1 ++ l2) = sendsFor cid l1 + sendsFor cid l2 := by
  simp [sendsFor, List.filter_append]

lemma sendsFor_single (cid : String) (sd : Send) :
    sendsFor cid [sd] = if sd.1 = cid then 1 else 0 := by
  by_cases h : sd.1 = cid
  · simp [sendsFor, List.filter, h]
  · have hb : (sd.1 == cid) = false := beq_eq_false_iff_ne.mpr h
    simp [sendsFor, List.filter, hb, h]

lemma sendsFor_nil (cid : String) : sendsFor cid [] = 0 := rfl

lemma sendsFor_cons (cid : String) (sd : Send) (l : List Send) :
    sendsFor cid (sd :: l) =
      (if sd.1 = cid then 1 else 0) + sendsFor cid l := by
  unfold sendsFor
  by_cases h : sd.1 = cid
  · rw [if_pos h, List.filter_cons_of_pos (by simp [h])]
    simp [Nat.add_comm]
  · rw [if_neg h, List.filter_cons_of_neg (by simp [h])]
    simp

/-- A unit reaches its send only for an id that was outside
`processed_items` at check time: every arm of `wantsSend` tests
membership before deciding to send. -/
lemma wantsSend_fresh {P : Finset String} {j : Job} {sd : Send}
    (h : wantsSend P j = some sd) : sd.1 ∉ P := by
  cases j with
  | pollPostJob p kw ok =>
    simp only [wantsSend] at h
    by_cases h1 : p.id ∈ P
    · rw [if_pos h1] at h
      exact absurd h (by simp)
    · rw [if_neg h1] at h
      by_cases h2 : (contains_keyword p.title kw ||
          (!p.selftext.toList.isEmpty && contains_keyword p.selftext kw)) = true
      · rw [if_pos h2] at h
        obtain rfl := Option.some.inj h
        exact h1
      · rw [if_neg h2] at h
        exact absurd h (by simp)
  | pollCommentJob c kw ok =>
    simp only [wantsSend] at h
    by_cases h1 : c.id ∈ P
    · rw [if_pos h1] at h
      exact absurd h (by simp)
    · rw [if_neg h1] at h
      by_cases h2 : contains_keyword c.body kw = true
      · rw [if_pos h2] at h
        obtain rfl := Option.some.inj h
        exact h1
      · rw [if_neg h2] at h
        exact absurd h (by simp)
  | streamCommentJob en subs sn c kws ok =>
    simp only [wantsSend] at h
    by_cases h1 : (!en) = true
    · rw [if_pos h1] at h
      exact absurd h (by simp)
    · rw [if_neg h1] at h
      by_cases h2 : "all" ∉ subs ∧ sn ∉ subs
      · rw [if_pos h2] at h
        exact absurd h (by simp)
      · rw [if_neg h2] at h
        by_cases h3 : c.id ∈ P
        · rw [if_pos h3] at h
          exact absurd h (by simp)
        · rw [if_neg h3] at h
          cases hf : kws.find? (fun k => contains_keyword c.body k) with
          | some kw2 =>
            rw [hf] at h
            obtain rfl := Option.some.inj h
            exact h3
          | none =>
            rw [hf] at h
            exact absurd h (by simp)

/-- One while a task may still make its *first* send of `cid`: `cid` is
not yet in the shared set and the task is not already suspended inside a
send of `cid`. -/
def mayFirst (cid : String) (processed : Finset String) (pc : TaskPC) : Nat :=
  if cid ∈ processed then 0 else if pendingIs cid pc then 0 else 1

/-- Per-task counting potential for a fixed id: logged sends plus the
pending first-send allowance.  Every micro-step of the system leaves it
unchanged or lower. -/
def runnerPotential (cid : String) (processed : Finset String)
    (sends : List Send) (pc : TaskPC) : Nat :=
  sendsFor cid sends + mayFirst cid processed pc

/-- The stepping task's own potential never increases: a skip changes
nothing, a check-pass trades the allowance for the logged send (the id
was fresh, by `wantsSend_fresh`), and the insert only shrinks the
allowance. -/
lemma runnerPotential_selfStep (cid : String) (P : Finset String)
    (sends : List Send) (pc : TaskPC) :
    runnerPotential cid (applyIns P (taskStep P pc).2.2)
        (sends ++ (taskStep P pc).2.1.toList) (taskStep P pc).1 ≤
      runnerPotential cid P sends pc := by
  cases pc with
  | idle jobs =>
    cases jobs with
    | nil => simp [taskStep, applyIns]
    | cons j rest =>
      cases hw : wantsSend P j with
      | none =>
        simp [taskStep, hw, applyIns, runnerPotential, mayFirst, pendingIs]
      | some sd =>
        have hfresh := wantsSend_fresh hw
        by_cases hc : sd.1 = cid
        · have hcp : cid ∉ P := hc ▸ hfresh
          simp [taskStep, hw, applyIns, runnerPotential, mayFirst, pendingIs,
            sendsFor_append, sendsFor_single, hc, hcp]
        · have hb : (sd.1 == cid) = false := beq_eq_false_iff_ne.mpr hc
          by_cases hm : cid ∈ P <;>
            simp [taskStep, hw, applyIns, runnerPotential, mayFirst,
              pendingIs, sendsFor_append, sendsFor_single, hc, hb, hm]
  | sending sd rest =>
    by_cases hm : cid ∈ P
    · have h2 : cid ∈ insert sd.1 P := Finset.mem_insert_of_mem hm
      simp [taskStep, applyIns, runnerPotential, mayFirst, pendingIs, hm, h2]
    · by_cases hc : sd.1 = cid
      · have h2 : cid ∈ insert sd.1 P := by
          rw [hc]
          exact Finset.mem_insert_self cid P
        simp [taskStep, applyIns, runnerPotential, mayFirst, pendingIs, hm,
          hc, h2]
      · have h2 : cid ∉ insert sd.1 P := by
          simp [Finset.mem_insert, hm, Ne.symm hc]
        have hb : (sd.1 == cid) = false := beq_eq_false_iff_ne.mpr hc
        simp [taskStep, applyIns, runnerPotential, mayFirst, pendingIs, hm,
          h2, hb]

/-- The other task's potential can only shrink when the shared set grows
by someone else's insert. -/
lemma runnerPotential_otherIns (cid : String) (P : Finset String)
    (sends : List Send) (pc : TaskPC) (ins : Option String) :
    runnerPotential cid (applyIns P ins) sends pc ≤
      runnerPotential cid P sends pc := by
  unfold runnerPotential mayFirst
  cases ins with
  | none => exact le_refl _
  | some i =>
    simp only [applyIns]
    by_cases hm : cid ∈ P
    · rw [if_pos hm, if_pos (Finset.mem_insert_of_mem hm)]
    · rw [if_neg hm]
      by_cases h2 : cid ∈ insert i P
      · rw [if_pos h2]
        exact Nat.add_le_add_left (Nat.zero_le _) _
      · rw [if_neg h2]

lemma runnerPotential0_sysStep (cid : String) (s : SysState) (b : Bool) :
    runnerPotential cid (sysStep s b).processed (sysStep s b).sends0
        (sysStep s b).task0 ≤
      runnerPotential cid s.processed s.sends0 s.task0 := by
  cases b with
  | true => exact runnerPotential_otherIns cid s.processed s.sends0 s.task0 _
  | false => exact runnerPotential_selfStep cid s.processed s.sends0 s.task0

lemma runnerPotential1_sysStep (cid : String) (s : SysState) (b : Bool) :
    runnerPotential cid (sysStep s b).processed (sysStep s b).sends1
        (sysStep s b).task1 ≤
      runnerPotential cid s.processed s.sends1 s.task1 := by
  cases b with
  | true => exact runnerPotential_selfStep cid s.processed s.sends1 s.task1
  | false => exact runnerPotential_otherIns cid s.processed s.sends1 s.task1 _

lemma runnerPotential0_run (cid : String) :
    ∀ (sched : List Bool) (s : SysState),
      runnerPotential cid (runSchedule s sched).processed
          (runSchedule s sched).sends0 (runSchedule s sched).task0 ≤
        runnerPotential cid s.processed s.sends0 s.task0 := by
  intro sched
  induction sched with
  | nil => intro s; exact le_refl _
  | cons b rest ih =>
    intro s
    exact le_trans (ih (sysStep s b)) (runnerPotential0_sysStep cid s b)

lemma runnerPotential1_run (cid : String) :
    ∀ (sched : List Bool) (s : SysState),
      runnerPotential cid (runSchedule s sched).processed
          (runSchedule s sched).sends1 (runSchedule s sched).task1 ≤
        runnerPotential cid s.processed s.sends1 s.task1 := by
  intro sched
  induction sched with
  | nil => intro s; exact le_refl _
  | cons b rest ih =>
    intro s
    exact le_trans (ih (sysStep s b)) (runnerPotential1_sysStep cid s b)

/-- Joint counting potential for a fixed id: all logged sends plus one
while *neither* task has yet passed its dedup check for `cid`. -/
def pairPotential (cid : String) (s : SysState) : Nat :=
  sendsFor cid (s.sends0 ++ s.sends1) +
    (if cid ∈ s.processed then 0
     else if pendingIs cid s.task0 || pendingIs cid s.task1 then 0 else 1)

/-- The joint potential never increases as long as the step does not put
*both* tasks simultaneously inside a send of `cid` — the exact overlap
the dedup check cannot see. -/
lemma pairPotential_step (cid : String) (s : SysState) (b : Bool)
    (h : ¬ bothPending cid (sysStep s b)) :
    pairPotential cid (sysStep s b) ≤ pairPotential cid s := by
  cases b with
  | false =>
    cases hpc : s.task0 with
    | idle jobs =>
      cases jobs with
      | nil => simp [sysStep, taskStep, hpc, applyIns, pairPotential]
      | cons j rest =>
        cases hw : wantsSend s.processed j with
        | none =>
          simp [sysStep, taskStep, hpc, hw, applyIns, pairPotential,
            pendingIs]
        | some sd =>
          have hfresh := wantsSend_fresh hw
          by_cases hc : sd.1 = cid
          · have hcp : cid ∉ s.processed := hc ▸ hfresh
            have hother : pendingIs cid s.task1 = false := by
              cases hpx : pendingIs cid s.task1 with
              | false => rfl
              | true =>
                refine absurd ⟨?_, ?_⟩ h
                · show pendingIs cid (sysStep s false).task0 = true
                  simp [sysStep, taskStep, hpc, hw, pendingIs, hc]
                · show pendingIs cid (sysStep s false).task1 = true
                  simpa [sysStep] using hpx
            unfold pendingIs at hother
            simp [sysStep, taskStep, hpc, hw, applyIns, pairPotential,
              pendingIs, sendsFor_append, sendsFor_cons, sendsFor_single,
              sendsFor_nil, hc, hcp, hother] <;> omega
          · have hb : (sd.1 == cid) = false := beq_eq_false_iff_ne.mpr hc
            by_cases hm : cid ∈ s.processed <;>
              simp [sysStep, taskStep, hpc, hw, applyIns, pairPotential,
                pendingIs, sendsFor_append, sendsFor_cons, sendsFor_single,
                sendsFor_nil, hc, hb, hm] <;> omega
    | sending sd rest =>
      by_cases hm : cid ∈ s.processed
      · have h2 : cid ∈ insert sd.1 s.processed := Finset.mem_insert_of_mem hm
        simp [sysStep, taskStep, hpc, applyIns, pairPotential, pendingIs,
          hm, h2]
      · by_cases hc : sd.1 = cid
        · have h2 : cid ∈ insert sd.1 s.processed := by
            rw [hc]
            exact Finset.mem_insert_self cid s.processed
          simp [sysStep, taskStep, hpc, applyIns, pairPotential, pendingIs,
            hm, hc, h2]
        · have h2 : cid ∉ insert sd.1 s.processed := by
            simp [Finset.mem_insert, hm, Ne.symm hc]
          have hb : (sd.1 == cid) = false := beq_eq_false_iff_ne.mpr hc
          simp [sysStep, taskStep, hpc, applyIns, pairPotential, pendingIs,
            hm, h2, hb]
  | true =>
    cases hpc : s.task1 with
    | idle jobs =>
      cases jobs with
      | nil => simp [sysStep, taskStep, hpc, applyIns, pairPotential]
      | cons j rest =>
        cases hw : wantsSend s.processed j with
        | none =>
          simp [sysStep, taskStep, hpc, hw, applyIns, pairPotential,
            pendingIs]
        | some sd =>
          have hfresh := wantsSend_fresh hw
          by_cases hc : sd.1 = cid
          · have hcp : cid ∉ s.processed := hc ▸ hfresh
            have hother : pendingIs cid s.task0 = false := by
              cases hpx : pendingIs cid s.task0 with
              | false => rfl
              | true =>
                refine absurd ⟨?_, ?_⟩ h
                · show pendingIs cid (sysStep s true).task0 = true
                  simpa [sysStep] using hpx
                · show pendingIs cid (sysStep s true).task1 = true
                  simp [sysStep, taskStep, hpc, hw, pendingIs, hc]
            unfold pendingIs at hother
            simp [sysStep, taskStep, hpc, hw, applyIns, pairPotential,
              pendingIs, sendsFor_append, sendsFor_cons, sendsFor_single,
              sendsFor_nil, hc, hcp, hother] <;> omega
          · have hb : (sd.1 == cid) = false := beq_eq_false_iff_ne.mpr hc
            by_cases hm : cid ∈ s.processed <;>
              simp [sysStep, taskStep, hpc, hw, applyIns, pairPotential,
                pendingIs, sendsFor_append, sendsFor_cons, sendsFor_single,
                sendsFor_nil, hc, hb, hm] <;> omega
    | sending sd rest =>
      by_cases hm : cid ∈ s.processed
      · have h2 : cid ∈ insert sd.1 s.processed := Finset.mem_insert_of_mem hm
        simp [sysStep, taskStep, hpc, applyIns, pairPotential, pendingIs,
          hm, h2]
      · by_cases hc : sd.1 = cid
        · have h2 : cid ∈ insert sd.1 s.processed := by
            rw [hc]
            exact Finset.mem_insert_self cid s.processed
          simp [sysStep, taskStep, hpc, applyIns, pairPotential, pendingIs,
            hm, hc, h2]
        · have h2 : cid ∉ insert sd.1 s.processed := by
            simp [Finset.mem_insert, hm, Ne.symm hc]
          have hb : (sd.1 == cid) = false := beq_eq_false_iff_ne.mpr hc
          simp [sysStep, taskStep, hpc, applyIns, pairPotential, pendingIs,
            hm, h2, hb]

lemma pairPotential_run (cid : String) :
    ∀ (sched : List Bool) (s : SysState),
      (∀ n : Nat, ¬ bothPending cid (runSchedule s (sched.take n))) →
      pairPotential cid (runSchedule s sched) ≤ pairPotential cid s := by
  intro sched
  induction sched with
  | nil => intro s _; exact le_refl _
  | cons b rest ih =>
    intro s h
    have h1 : ¬ bothPending cid (sysStep s b) := by
      have h2 := h 1
      simpa [runSchedule] using h2
    have h2 : ∀ n : Nat,
        ¬ bothPending cid (runSchedule (sysStep s b) (rest.take n)) := by
      intro n
      have h3 := h (n + 1)
      simpa [runSchedule, List.take_succ_cons] using h3
    exact le_trans (ih (sysStep s b) h2) (pairPotential_step cid s b h1)

/-- Claim C1 fails as stated: the dedup check and the insert straddle the
awaited `send_message` call, and the poll and stream tasks interleave on
the same `processed_items` set.  A fresh comment reaching both tasks
under the schedule poll-check, stream-check, poll-insert, stream-insert
is sent twice to the same destination — each task's membership test ran
before either insert.  (`sends0`/`sends1` are the two tasks' send
logs.) -/
theorem c1_interleaved_double_send :
    sendsFor "c1"
      ((runSchedule
          ⟨∅, [], [],
            .idle [.pollCommentJob ⟨"c1", "pain relief"⟩ "pain" true],
            .idle [.streamCommentJob true {"all"} "tech" ⟨"c1", "pain relief"⟩
              ["pain"] false]⟩
          [false, true, false, true]).sends0 ++
        (runSchedule
          ⟨∅, [], [],
            .idle [.pollCommentJob ⟨"c1", "pain relief"⟩ "pain" true],
            .idle [.streamCommentJob true {"all"} "tech" ⟨"c1", "pain relief"⟩
              ["pain"] false]⟩
          [false, true, false, true]).sends1) = 2 := by decide

/-- Claim C1 (amended, corrected): at a fixed destination, *each runner
task* makes at most one send attempt per item id — membership is tested
before sending and the id inserted immediately after the send attempt,
whatever the sink outcome, since `send_message` swallows all errors —
and an id already in `processed_items` is never sent by either task; so
across both tasks at most two notifications can go out, and at most one
in total whenever the two tasks are never simultaneously suspended
inside a send of that id (the check and the insert straddle that await,
so only a concurrent overlap of the two paths on the same fresh id can
double-send). -/
theorem c1_per_runner_at_most_once :
    (∀ (cid : String) (P : Finset String) (jobs0 jobs1 : List Job)
        (sched : List Bool),
        sendsFor cid
            (runSchedule ⟨P, [], [], .idle jobs0, .idle jobs1⟩ sched).sends0 ≤
          1 ∧
        sendsFor cid
            (runSchedule ⟨P, [], [], .idle jobs0, .idle jobs1⟩ sched).sends1 ≤
          1 ∧
        (cid ∈ P →
          sendsFor cid
              (runSchedule ⟨P, [], [], .idle jobs0, .idle jobs1⟩
                sched).sends0 = 0 ∧
          sendsFor cid
              (runSchedule ⟨P, [], [], .idle jobs0, .idle jobs1⟩
                sched).sends1 = 0)) ∧
    (∀ (cid : String) (P : Finset String) (jobs0 jobs1 : List Job)
        (sched : List Bool),
        (∀ n : Nat, ¬ bothPending cid
          (runSchedule ⟨P, [], [], .idle jobs0, .idle jobs1⟩
            (sched.take n))) →
        sendsFor cid
            ((runSchedule ⟨P, [], [], .idle jobs0, .idle jobs1⟩
                sched).sends0 ++
              (runSchedule ⟨P, [], [], .idle jobs0, .idle jobs1⟩
                sched).sends1) ≤ 1) := by
  constructor
  · intro cid P jobs0 jobs1 sched
    have h0 := runnerPotential0_run cid sched
      ⟨P, [], [], .idle jobs0, .idle jobs1⟩
    have h1 := runnerPotential1_run cid sched
      ⟨P, [], [], .idle jobs0, .idle jobs1⟩
    have hb0 : sendsFor cid
        (runSchedule ⟨P, [], [], .idle jobs0, .idle jobs1⟩ sched).sends0 ≤
        runnerPotential cid
          (runSchedule ⟨P, [], [], .idle jobs0, .idle jobs1⟩ sched).processed
          (runSchedule ⟨P, [], [], .idle jobs0, .idle jobs1⟩ sched).sends0
          (runSchedule ⟨P, [], [], .idle jobs0, .idle jobs1⟩ sched).task0 := by
      unfold runnerPotential
      omega
    have hb1 : sendsFor cid
        (runSchedule ⟨P, [], [], .idle jobs0, .idle jobs1⟩ sched).sends1 ≤
        runnerPotential cid
          (runSchedule ⟨P, [], [], .idle jobs0, .idle jobs1⟩ sched).processed
          (runSchedule ⟨P, [], [], .idle jobs0, .idle jobs1⟩ sched).sends1
          (runSchedule ⟨P, [], [], .idle jobs0, .idle jobs1⟩ sched).task1 := by
      unfold runnerPotential
      omega
    have hinit0 : runnerPotential cid P [] (.idle jobs0) =
        (if cid ∈ P then 0 else 1) := by
      simp [runnerPotential, mayFirst, pendingIs, sendsFor]
    have hinit1 : runnerPotential cid P [] (.idle jobs1) =
        (if cid ∈ P then 0 else 1) := by
      simp [runnerPotential, mayFirst, pendingIs, sendsFor]
    rw [hinit0] at h0
    rw [hinit1] at h1
    refine ⟨?_, ?_, fun hmem => ⟨?_, ?_⟩⟩
    · refine le_trans hb0 (le_trans h0 ?_)
      split <;> omega
    · refine le_trans hb1 (le_trans h1 ?_)
      split <;> omega
    · rw [if_pos hmem] at h0
      omega
    · rw [if_pos hmem] at h1
      omega
  · intro cid P jobs0 jobs1 sched h
    have hrun := pairPotential_run cid sched
      ⟨P, [], [], .idle jobs0, .idle jobs1⟩ h
    have hb : sendsFor cid
        ((runSchedule ⟨P, [], [], .idle jobs0, .idle jobs1⟩ sched).sends0 ++
          (runSchedule ⟨P, [], [], .idle jobs0, .idle jobs1⟩
            sched).sends1) ≤
        pairPotential cid
          (runSchedule ⟨P, [], [], .idle jobs0, .idle jobs1⟩ sched) := by
      unfold pairPotential
      omega
    have hinit : pairPotential cid
        (⟨P, [], [], .idle jobs0, .idle jobs1⟩ : SysState) ≤ 1 := by
      by_cases hm : cid ∈ P <;>
        simp [pairPotential, pendingIs, sendsFor, hm] <;> omega
    exact le_trans hb (le_trans hrun hinit)

/-- Witness for C1's amended statement: an already-processed id is never
sent under the racing schedule, and the very jobs of the double-send
counterexample produce at most one notification under a serialized
schedule (poll runs to completion before the stream task). -/
theorem c1_per_runner_at_most_once_witness :
    ("i1" : String) ∈ ({"i1"} : Finset String) ∧
    sendsFor "i1"
        (runSchedule
          ⟨{"i1"}, [], [],
            .idle [.pollCommentJob ⟨"i1", "pain relief"⟩ "pain" true],
            .idle [.streamCommentJob true {"all"} "tech" ⟨"i1", "pain relief"⟩
              ["pain"] false]⟩
          [false, true, false, true]).sends0 = 0 ∧
    (∀ n : Nat, ¬ bothPending "c1"
      (runSchedule
        ⟨∅, [], [],
          .idle [.pollCommentJob ⟨"c1", "pain relief"⟩ "pain" true],
          .idle [.streamCommentJob true {"all"} "tech" ⟨"c1", "pain relief"⟩
            ["pain"] false]⟩
        ([false, false, true, true].take n))) ∧
    sendsFor "c1"
        ((runSchedule
            ⟨∅, [], [],
              .idle [.pollCommentJob ⟨"c1", "pain relief"⟩ "pain" true],
              .idle [.streamCommentJob true {"all"} "tech"
                ⟨"c1", "pain relief"⟩ ["pain"] false]⟩
            [false, false, true, true]).sends0 ++
          (runSchedule
            ⟨∅, [], [],
              .idle [.pollCommentJob ⟨"c1", "pain relief"⟩ "pain" true],
              .idle [.streamCommentJob true {"all"} "tech"
                ⟨"c1", "pain relief"⟩ ["pain"] false]⟩
            [false, false, true, true]).sends1) ≤ 1 := by
  have hh : ∀ n : Nat, ¬ bothPending "c1"
      (runSchedule
        ⟨∅, [], [],
          .idle [.pollCommentJob ⟨"c1", "pain relief"⟩ "pain" true],
          .idle [.streamCommentJob true {"all"} "tech" ⟨"c1", "pain relief"⟩
            ["pain"] false]⟩
        ([false, false, true, true].take n)) := by
    intro n
    match n with
    | 0 => decide
    | 1 => decide
    | 2 => decide
    | 3 => decide
    | (m + 4) =>
      rw [List.take_of_length_le (by simp)]
      decide
  refine ⟨by decide, ?_, hh, ?_⟩
  · exact ((c1_per_runner_at_most_once.1 "i1" {"i1"}
      [.pollCommentJob ⟨"i1", "pain relief"⟩ "pain" true]
      [.streamCommentJob true {"all"} "tech" ⟨"i1", "pain relief"⟩
        ["pain"] false]
      [false, true, false, true]).2.2 (by decide)).1
  · exact c1_per_runner_at_most_once.2 "c1" ∅
      [.pollCommentJob ⟨"c1", "pain relief"⟩ "pain" true]
      [.streamCommentJob true {"all"} "tech" ⟨"c1", "pain relief"⟩
        ["pain"] false]
      [false, false, true, true] hh

/-! ## Claim C6 -/

/-- A source whose `reddit.subreddit` call fails contributes nothing to
the posts phase: the `except` catches, logs and continues. -/
lemma runPostsSource_fail (env : FetchEnv) (kws : List String)
    (st : PollState) (sub : String) (h : env.subredditOk sub = false) :
    runPostsSource env kws st sub = st := by
  simp [runPostsSource, h]

/-- A source whose `reddit.subreddit` call fails contributes nothing to
the comments phase. -/
lemma runCommentsSource_fail (env : FetchEnv) (kws : List String)
    (st : PollState) (sub : String) (h : env.subredditOk sub = false) :
    runCommentsSource env kws st sub = st := by
  simp [runCommentsSource, h]

lemma foldl_postsSource_skip (env : FetchEnv) (kws : List String) :
    ∀ (subs : List String) (st : PollState),
      (∀ sub ∈ subs, env.subredditOk sub = false) →
      subs.foldl (runPostsSource env kws) st = st := by
  intro subs
  induction subs with
  | nil => intro st _; rfl
  | cons a l ih =>
    intro st h
    rw [List.foldl_cons, runPostsSource_fail env kws st a (h a (by simp))]
    exact ih st (fun s hs => h s (by simp [hs]))

lemma foldl_commentsSource_skip (env : FetchEnv) (kws : List String) :
    ∀ (subs : List String) (st : PollState),
      (∀ sub ∈ subs, env.subredditOk sub = false) →
      subs.foldl (runCommentsSource env kws) st = st := by
  intro subs
  induction subs with
  | nil => intro st _; rfl
  | cons a l ih =>
    intro st h
    rw [List.foldl_cons, runCommentsSource_fail env kws st a (h a (by simp))]
    exact ih st (fun s hs => h s (by simp [hs]))

/-- When every source of a group fails to fetch, its whole
`search_for_group` run leaves the state untouched (and in particular
returns instead of raising). -/
lemma search_for_group_allFail (env : FetchEnv) (en : Bool)
    (kws subs : List String) (st : PollState)
    (h : ∀ sub ∈ subs, env.subredditOk sub = false) :
    search_for_group env en kws subs st = st := by
  unfold search_for_group
  by_cases hg : (!en || kws.isEmpty) = true
  · rw [if_pos hg]
  · rw [if_neg hg]
    rw [foldl_postsSource_skip env kws subs st h,
      foldl_commentsSource_skip env kws subs st h]

/-- Claim C6 (confirmed): a fetch/search error at one source is caught
and logged, and the poll pass continues: a failing source behaves exactly
as if it were absent from the group's source list (all other sources, in
both the posts and the comments phase, are processed identically), and a
destination all of whose sources fail is left unchanged while every other
destination of the cycle is processed exactly as before — no fetch error
aborts the cycle. -/
theorem c6_fetch_errors_isolated :
    (∀ (env : FetchEnv) (en : Bool) (kws : List String) (st : PollState)
        (pre post : List String) (sub : String),
        env.subredditOk sub = false →
        search_for_group env en kws (pre ++ sub :: post) st =
          search_for_group env en kws (pre ++ post) st) ∧
    (∀ (env : FetchEnv) (cfg : PollCfg) (cid : String)
        (pre post : List (String × PollCfg)),
        (∀ sub ∈ cfg.subreddits, env.subredditOk sub = false) →
        monitor_pass env (pre ++ (cid, cfg) :: post) =
          monitor_pass env pre ++ (cid, cfg) :: monitor_pass env post) := by
  constructor
  · intro env en kws st pre post sub h
    unfold search_for_group
    by_cases hg : (!en || kws.isEmpty) = true
    · rw [if_pos hg, if_pos hg]
    · rw [if_neg hg, if_neg hg]
      have hp : ∀ st' : PollState,
          (pre ++ sub :: post).foldl (runPostsSource env kws) st' =
            (pre ++ post).foldl (runPostsSource env kws) st' := by
        intro st'
        rw [List.foldl_append, List.foldl_append, List.foldl_cons,
          runPostsSource_fail env kws _ sub h]
      have hc : ∀ st' : PollState,
          (pre ++ sub :: post).foldl (runCommentsSource env kws) st' =
            (pre ++ post).foldl (runCommentsSource env kws) st' := by
        intro st'
        rw [List.foldl_append, List.foldl_append, List.foldl_cons,
          runCommentsSource_fail env kws _ sub h]
      rw [hp st, hc _]
  · intro env cfg cid pre post h
    unfold monitor_pass
    rw [List.map_append, List.map_cons]
    have hrun : runGroupPoll env cfg = (cfg, []) := by
      unfold runGroupPoll
      rw [search_for_group_allFail env cfg.enabled cfg.keywords
        cfg.subreddits ⟨cfg.processed, []⟩ h]
    rw [hrun]

/-- Witness for C6: with a world where every fetch fails, a one-group
cycle completes and leaves the group unchanged. -/
theorem c6_fetch_errors_isolated_witness :
    (∀ sub ∈ (["tech"] : List String),
      FetchEnv.subredditOk
        ⟨fun _ => false, fun _ _ => ([], true), fun _ => ([], true),
          fun _ _ => true⟩ sub = false) ∧
    monitor_pass
        ⟨fun _ => false, fun _ _ => ([], true), fun _ => ([], true),
          fun _ _ => true⟩
        ([] ++ ("42", ⟨true, ["pain"], ["tech"], ∅⟩) :: []) =
      monitor_pass
        ⟨fun _ => false, fun _ _ => ([], true), fun _ => ([], true),
          fun _ _ => true⟩ [] ++
        ("42", ⟨true, ["pain"], ["tech"], ∅⟩) ::
          monitor_pass
            ⟨fun _ => false, fun _ _ => ([], true), fun _ => ([], true),
              fun _ _ => true⟩ [] :=
  ⟨fun _ _ => rfl,
    c6_fetch_errors_isolated.2
      ⟨fun _ => false, fun _ _ => ([], true), fun _ => ([], true),
        fun _ _ => true⟩
      ⟨true, ["pain"], ["tech"], ∅⟩ "42" [] [] (fun _ _ => rfl)⟩

/-! ## Claim C2 -/

/-- Claim C2 fails as stated: for the keyword `"!"` (whose edge
characters are not word characters), the code's `\b`-based search
accepts `"a!b"` although the only occurrence of `"!"` is bounded on both
sides by word characters, so the spec-words condition rejects it — the
claimed iff is false at this input. -/
theorem c2_boundary_counterexample :
    contains_keyword "a!b" "!" = true ∧
    containsKeywordSpecWords "a!b" "!" = false := by decide

lemma list_any_congr {α : Type} (p q : α → Bool) :
    ∀ l : List α, (∀ x ∈ l, p x = q x) → l.any p = l.any q := by
  intro l
  induction l with
  | nil => intro _; rfl
  | cons a t ih =>
    intro h
    simp only [List.any_cons]
    rw [h a (by simp), ih (fun x hx => h x (by simp [hx]))]

/-- Claim C2 (amended): `contains_keyword` returns true iff both inputs
are non-empty and the case-folded keyword occurs in the case-folded text
with a regex word boundary (`\b`) at both ends — a position where exactly
one side is a word character, string edges counting as non-word.  For
keywords that begin and end with word characters this coincides with the
spec's phrasing "bounded on both sides by a non-word character or the
string edge"; and the claim's concrete examples hold. -/
theorem c2_word_boundary_match :
    (∀ text keyword : String,
        contains_keyword text keyword = true ↔
          (text.toList ≠ [] ∧ keyword.toList ≠ [] ∧
            ∃ i, i < (lowerList text).length + 1 ∧
              ((lowerList text).drop i).take (lowerList keyword).length =
                lowerList keyword ∧
              boundaryAt (lowerList text) i = true ∧
              boundaryAt (lowerList text)
                (i + (lowerList keyword).length) = true)) ∧
    (∀ text keyword : String,
        lowerList keyword ≠ [] →
        isWordChar ((lowerList keyword).headI) = true →
        isWordChar ((lowerList keyword).getLastD 'a') = true →
        contains_keyword text keyword = containsKeywordSpecWords text keyword) ∧
    contains_keyword "Painkillers are common" "pain" = false ∧
    contains_keyword "pain killer" "pain" = true := by
  refine ⟨?_, ?_, by decide, by decide⟩
  · intro text keyword
    unfold contains_keyword searchWB
    by_cases he : (text.toList.isEmpty || keyword.toList.isEmpty) = true
    · rw [if_pos he]
      simp only [Bool.or_eq_true, List.isEmpty_iff] at he
      constructor
      · intro h
        exact absurd h (by simp)
      · rintro ⟨h1, h2, -⟩
        rcases he with he | he
        · exact (h1 he).elim
        · exact (h2 he).elim
    · rw [if_neg he]
      rw [List.any_eq_true]
      constructor
      · rintro ⟨i, hi, hp⟩
        rw [List.mem_range] at hi
        simp only [Bool.and_eq_true] at hp
        obtain ⟨⟨hm, hb1⟩, hb2⟩ := hp
        simp only [Bool.or_eq_true, List.isEmpty_iff, not_or] at he
        refine ⟨he.1, he.2, i, hi, ?_, hb1, hb2⟩
        simpa [matchAt] using hm
      · rintro ⟨h1, h2, i, hi, hm, hb1, hb2⟩
        refine ⟨i, List.mem_range.mpr hi, ?_⟩
        simp [matchAt, hm, hb1, hb2]
  · intro text keyword hk hfirst hlast
    unfold contains_keyword containsKeywordSpecWords searchWB
    by_cases he : (text.toList.isEmpty || keyword.toList.isEmpty) = true
    · rw [if_pos he, if_pos he]
    · rw [if_neg he, if_neg he]
      apply list_any_congr
      intro i _
      cases hm : matchAt (lowerList text) (lowerList keyword) i with
      | false => simp
      | true =>
        simp only [Bool.true_and]
        have hmeq : ((lowerList text).drop i).take (lowerList keyword).length =
            lowerList keyword := by simpa [matchAt] using hm
        obtain ⟨c, k', hkk⟩ := List.exists_cons_of_ne_nil hk
        have hklen : 0 < (lowerList keyword).length := by
          rw [hkk]; simp
        have hw0 : wordAt (lowerList text) i = true := by
          have hc0 : (lowerList text)[i]? = some c := by
            have h0 : (lowerList keyword)[0]? = some c := by rw [hkk]; simp
            rw [← hmeq, List.getElem?_take_of_lt hklen,
              List.getElem?_drop] at h0
            simpa using h0
          have hcw : isWordChar c = true := by
            have : (lowerList keyword).headI = c := by rw [hkk]; rfl
            rw [← this]; exact hfirst
          simp [wordAt, hc0, hcw]
        have hwlast : wordAt (lowerList text)
            (i + (lowerList keyword).length - 1) = true := by
          obtain ⟨x, hx⟩ := Option.isSome_iff_exists.mp
            (List.getLast?_isSome.mpr hk)
          have hxe : (lowerList keyword)[(lowerList keyword).length - 1]? =
              some x := by
            rw [← List.getLast?_eq_getElem?]; exact hx
          have hxt : (lowerList text)[i + ((lowerList keyword).length - 1)]? =
              some x := by
            have h1 : (((lowerList text).drop i).take
                (lowerList keyword).length)[(lowerList keyword).length - 1]? =
                some x := by
              rw [hmeq]; exact hxe
            rw [List.getElem?_take_of_lt
              (show (lowerList keyword).length - 1 <
                (lowerList keyword).length by omega),
              List.getElem?_drop] at h1
            exact h1
          have hxw : isWordChar x = true := by
            have : (lowerList keyword).getLastD 'a' = x := by
              rw [List.getLastD_eq_getLast? 'a', hx]; rfl
            rw [← this]; exact hlast
          have harith : i + (lowerList keyword).length - 1 =
              i + ((lowerList keyword).length - 1) := by omega
          rw [harith]
          simp [wordAt, hxt, hxw]
        have hb1 : boundaryAt (lowerList text) i =
            (i == 0 || !wordAt (lowerList text) (i - 1)) := by
          unfold boundaryAt
          rw [hw0, Bool.bne_true]
          by_cases h0 : i = 0
          · subst h0; simp
          · rw [if_neg h0]
            have : (i == 0) = false := by simpa using h0
            rw [this, Bool.false_or]
        have hb2 : boundaryAt (lowerList text)
            (i + (lowerList keyword).length) =
            !wordAt (lowerList text) (i + (lowerList keyword).length) := by
          unfold boundaryAt
          rw [if_neg (by omega), hwlast]
          cases wordAt (lowerList text) (i + (lowerList keyword).length) <;>
            rfl
        rw [hb1, hb2]

/-- Witness for C2's amended statement, applying the word-edge-keyword
coincidence at a concrete input. -/
theorem c2_word_boundary_match_witness :
    lowerList "Pain" ≠ [] ∧
    isWordChar ((lowerList "Pain").headI) = true ∧
    isWordChar ((lowerList "Pain").getLastD 'a') = true ∧
    contains_keyword "No pain, no gain" "Pain" =
      containsKeywordSpecWords "No pain, no gain" "Pain" :=
  ⟨by decide, by decide, by decide,
    c2_word_boundary_match.2.1 "No pain, no gain" "Pain" (by decide)
      (by decide) (by decide)⟩

/-! ## Claim C3 -/

/-- Any element of the `k`-dropped enumeration of `range n` is at least
`k`. -/
lemma mem_drop_range {n k x : Nat} (h : x ∈ (List.range n).drop k) : k ≤ x := by
  obtain ⟨j, hj⟩ := List.getElem?_of_mem h
  rw [List.getElem?_drop] at hj
  rcases Nat.lt_or_ge (k + j) n with hlt | hge
  · rw [List.getElem?_range hlt] at hj
    have := Option.some.inj hj
    omega
  · rw [List.getElem?_eq_none (by simpa using hge)] at hj
    exact absurd hj (by simp)

/-- `save_data`'s trim applied to the newest-first enumeration of
`{0, …, 5000}` retains exactly the 2000 *oldest* identifiers. -/
lemma trim_reverse_range :
    trim_processed ((List.range 5001).reverse) = (List.range 2000).reverse := by
  unfold trim_processed
  rw [if_pos (by simp)]
  have h1 : ((List.range 5001).reverse).length - 2000 =
      (List.range 5001).length - 2000 := by simp
  rw [h1, ← List.reverse_take, List.take_range]
  norm_num

/-- Claim C3 is refuted on the code (code bug): `processed_items` is a
plain Python `set`, so `set(list(s)[-2000:])` keeps the last 2000
elements of the set's *iteration order*, which is unrelated to insertion
order (CPython string hashing is seed-randomized).  Take ids inserted in
the order `0, …, 5000` (so the 2000 most recently inserted are
`3001, …, 5000`, i.e. `trim_processed` of the insertion-order list) and
an iteration order that happens to enumerate newest-first: the trim does
retain exactly 2000 identifiers, but they are precisely the 2000
*oldest* — not one of the 2000 most recently inserted survives.  The
code's own comment says "Keep only recent 5000 processed items". -/
theorem c3_trim_ignores_insertion_order :
    (List.range 5001).reverse.Nodup ∧
    ((List.range 5001).reverse).toFinset = (List.range 5001).toFinset ∧
    (trim_processed ((List.range 5001).reverse)).length = 2000 ∧
    ∀ x ∈ trim_processed ((List.range 5001).reverse),
      x ∉ trim_processed (List.range 5001) := by
  refine ⟨List.nodup_reverse.mpr (List.nodup_range 5001),
    List.toFinset_reverse, ?_, ?_⟩
  · rw [trim_reverse_range]
    simp
  · intro x hx hmem
    rw [trim_reverse_range, List.mem_reverse, List.mem_range] at hx
    have htr : trim_processed (List.range 5001) =
        (List.range 5001).drop 3001 := by
      unfold trim_processed
      rw [if_pos (by simp)]
      have hn : (List.range 5001).length - 2000 = 3001 := by simp
      rw [hn]
    rw [htr] at hmem
    have := mem_drop_range hmem
    omega

/-- Witness for C3: the oldest identifier `0` survives the trim under
the newest-first enumeration while it is not among the 2000 most
recently inserted. -/
theorem c3_trim_ignores_insertion_order_witness :
    (0 : Nat) ∈ trim_processed ((List.range 5001).reverse) ∧
    (0 : Nat) ∉ trim_processed (List.range 5001) := by
  have h0 : (0 : Nat) ∈ trim_processed ((List.range 5001).reverse) := by
    rw [trim_reverse_range]
    simp
  exact ⟨h0, c3_trim_ignores_insertion_order.2.2.2 0 h0⟩

/-! ## Claim C9 -/

/-- Claim C9 fails as stated: pressing the `list_kw` button in a chat
with no existing subscription lazily creates one — a registry mutation
that changes persisted state — yet the handler performs zero
`save_data` calls before returning. -/
theorem c9_lazy_creation_no_save :
    (callback_handler ⟨[], []⟩ "42" "list_kw").2 = 0 ∧
    (callback_handler ⟨[], []⟩ "42" "list_kw").1.groups =
      [("42", defaultConfig)] := by decide

/-- Claim C9 (amended): every command-surface mutation of an existing
subscription's fields saves before returning — all four text-input
mutations (add/remove keywords, add/remove sources), the clearing and
toggling callbacks (`clear_kw`, `clear_sub`, `toggle`), and the `/start`
command's explicit create-and-save; but the lazy creation of a new
subscription performed by `get_group_config` on behalf of the other
(read-only or menu-state) handlers does not itself trigger a save. -/
theorem c9_mutations_save :
    (∀ (st : BotState) (chatId text state : String),
        alookup st.menuStates chatId = some (some state) →
        state ∈ (["adding_keywords", "removing_keywords", "adding_subs",
          "removing_subs"] : List String) →
        (parseItems text).isEmpty = false →
        (handle_text st chatId text).2 = 1) ∧
    (∀ (st : BotState) (chatId data : String),
        data ∈ (["clear_kw", "clear_sub", "toggle"] : List String) →
        (callback_handler st chatId data).2 = 1) ∧
    (∀ (st : BotState) (chatId : String), (start_cmd st chatId).2 = 1) := by
  refine ⟨?_, ?_, fun st chatId => rfl⟩
  · intro st chatId text state hlook hmem hitems
    fin_cases hmem <;>
      · unfold handle_text
        rw [hlook]
        simp [hitems]
  · intro st chatId data hmem
    fin_cases hmem <;> rfl

/-- Witness for C9's amended statement at concrete inputs. -/
theorem c9_mutations_save_witness :
    alookup (BotState.mk [] [("7", some "adding_keywords")]).menuStates "7" =
      some (some "adding_keywords") ∧
    ("adding_keywords" : String) ∈ (["adding_keywords", "removing_keywords",
      "adding_subs", "removing_subs"] : List String) ∧
    (parseItems "pain killer, crypto").isEmpty = false ∧
    (handle_text ⟨[], [("7", some "adding_keywords")]⟩ "7"
      "pain killer, crypto").2 = 1 ∧
    (callback_handler ⟨[], []⟩ "7" "toggle").2 = 1 ∧
    (start_cmd ⟨[], []⟩ "7").2 = 1 :=
  ⟨by decide, by decide, by decide,
    c9_mutations_save.1 ⟨[], [("7", some "adding_keywords")]⟩ "7"
      "pain killer, crypto" "adding_keywords" (by decide) (by decide)
      (by decide),
    c9_mutations_save.2.1 ⟨[], []⟩ "7" "toggle" (by decide),
    c9_mutations_save.2.2 ⟨[], []⟩ "7"⟩

end App
